import Mathlib

/-!
Shallow embedding of velite's incremental collection-resolution engine
(src/builder.ts: `load`, `resolve`, `watch`; src/schemas/markdown.ts:
`markdown`) for checking the natural-language specification against the
code.

JavaScript values that flow through the engine (parsed records, schema
outputs, aggregate data) are modelled by `JSValue`, with JavaScript
truthiness made explicit, because the source filters aggregate data with
`.filter(Boolean)`.  Asynchronous `Promise.all` fan-outs are embedded as
sequential folds; per the source's cooperative single-pass concurrency
this is observationally faithful (each pass is the sole owner of the
caches for its duration).  Side effects (glob calls, file reads,
validator invocations, warnings, output emission) are reified as an
ordered `Event` list returned alongside the result, and errors thrown by
the engine are an explicit `Except` channel.
-/

namespace Velite

/-- A JavaScript value, as far as the engine inspects one: the engine
branches on `Array.isArray` and on truthiness (`filter(Boolean)`), and
otherwise passes values through opaquely. -/
inductive JSValue where
  | undefined : JSValue
  | null : JSValue
  | bool (b : Bool) : JSValue
  | num (n : Int) : JSValue
  | str (s : String) : JSValue
  | arr (elems : List JSValue) : JSValue
deriving Repr

/-- JavaScript truthiness, as consumed by `.filter(Boolean)` in
`resolve`: `undefined`, `null`, `false`, `0` and `''` are falsy; every
array (even empty) is truthy. -/
def JSValue.truthy : JSValue → Bool
  | .undefined => false
  | .null => false
  | .bool b => b
  | .num n => n != 0
  | .str s => s ≠ ""
  | .arr _ => true

/-- `Array.isArray`. -/
def JSValue.isArray : JSValue → Bool
  | .arr _ => true
  | _ => false

/-- One diagnostic issue produced by the schema-validation collaborator
(zod): a human message and a field path inside the validated record. -/
structure Issue where
  message : String
  path : List String
deriving Repr

/-- Result of one `schema.safeParseAsync` call: a validated output value
or a non-empty bag of issues.  (The engine only reads `success`,
`data` and `error.issues`.) -/
inductive ParseResult where
  | success (data : JSValue) : ParseResult
  | failure (issues : List Issue) : ParseResult
deriving Repr

/-- The schema-validation capability for one collection, an external
collaborator: a function from a record to a parse outcome.  Issue paths
it returns are relative to the record; the context-path prefixing done
by zod's `path` option is modelled by `safeParseWithPath`. -/
def Schema : Type := JSValue → ParseResult

/-- Modelled from the zod collaborator contract: `safeParseAsync(item,
{ path })` prefixes the supplied contextual path onto the path of every
issue it reports, so issues of the record at index `i` of an
array-shaped file carry paths beginning with `i`. -/
def safeParseWithPath (schema : Schema) (ctxPath : List String) (item : JSValue) :
    ParseResult :=
  match schema item with
  | .success d => .success d
  | .failure issues =>
      .failure (issues.map fun i => { i with path := ctxPath ++ i.path })

/-- A diagnostic message attached to a File Representation by
`meta.message(reason, { source })`. -/
structure Message where
  reason : String
  source : String
deriving Repr, DecidableEq

/-- File Representation: the in-memory unit tracking one physical
file's parsed records, diagnostics, and validated result
(`VeliteFile`). -/
structure VeliteFile where
  path : String
  records : JSValue
  messages : List Message
  result : JSValue
deriving Repr

/-- A collection declaration as consumed by the engine: glob patterns,
the validation schema, and the single/multiple cardinality flag. -/
structure Collection where
  pattern : List String
  schema : Schema
  single : Bool

/-- The resolved configuration, restricted to the fields the embedded
code reads.  `prepare` is the optional pre-output hook (its `Option
Bool` result models a JavaScript return value of `false`, `true`, or
`undefined`); `hasComplete` records whether a post-output `complete`
hook is configured (it is invoked for side effects only).  `cache` is
`config.cache`, the loader cache whose entries map keys to source file
paths; the watch handler deletes entries whose value equals the changed
path. -/
structure Config where
  root : String
  strict : Bool
  collections : List (String × Collection)
  prepare : Option (List (String × JSValue) → Option Bool)
  hasComplete : Bool
  configPath : String
  configImports : List String
  cache : List (String × String)

/-- The external collaborators the engine calls into, as pure
functions: path normalization (`node:path` `normalize`), path joining
(`join`), glob matching over the content root (`fast-glob`, files only,
underscore-prefixed files excluded — options fixed by the caller),
micromatch's `contains(path, patterns)`, and the file reader/parser
used by `VeliteFile.create` to turn a path into its raw records. -/
structure Env where
  normalize : String → String
  join : String → String → String
  glob : List String → List String
  contains : String → List String → Bool
  contents : String → JSValue

/-- Process-wide mutable state of the engine: the per-path File
Representation cache behind `VeliteFile.get`/`VeliteFile.create`
(modelled from the spec: `file.ts` is not part of the sources, but the
spec fixes a process-wide cache keyed by normalized path, populated on
create and read by `get`), and the `resolved` map from collection name
to its last resolved File Representation list. -/
structure BuildState where
  fileCache : List (String × VeliteFile)
  resolvedCache : List (String × List VeliteFile)

/-- Observable actions of one pass, in program order. -/
inductive Event where
  | globbed (name : String) : Event
  | fileRead (path : String) : Event
  | validated (path : String) (index : Nat) : Event
  | warnedIssues : Event
  | warnedMultiple (name : String) : Event
  | warnedPreventOutput : Event
  | prepared : Event
  | dataOutput : Event
  | assetsOutput : Event
  | completed : Event
deriving Repr, DecidableEq

/-- Errors thrown by a resolution pass. -/
inductive BuildError where
  | schemaValidationFailed : BuildError
  | noDataResolved (name : String) : BuildError
deriving Repr, DecidableEq

/-- `const list = isArr ? meta.records : [meta.records]`: the records
of a file, as a list — an array-shaped file contributes its elements,
any other file is the one-element case. -/
def recordList : JSValue → List JSValue
  | .arr xs => xs
  | v => [v]

/-- The body of `load` past its cache short-circuit: `VeliteFile.create`
reads and parses the file (recording its records and registering the
representation in the path cache), then every record is validated —
with its index as contextual path when the file is array-shaped — and
failures contribute their issues as messages (source locator: the
issue's full path joined with `.`) while their slot in the parsed
sequence becomes `undefined`.  `result` is the parsed sequence for an
array-shaped file, its sole element otherwise. -/
def loadFresh (env : Env) (path : String) (schema : Schema) (st : BuildState) :
    VeliteFile × BuildState × List Event :=
  let records := env.contents path
  let isArr := records.isArray
  let list := recordList records
  let step := list.enum.map fun (index, item) =>
    let ctxPath := if isArr then [toString index] else []
    match safeParseWithPath schema ctxPath item with
    | .success d => (d, ([] : List Message))
    | .failure issues =>
        (JSValue.undefined,
         issues.map fun (i : Issue) => ⟨i.message, String.intercalate "." i.path⟩)
  let parsed := step.map (·.1)
  let meta : VeliteFile :=
    { path := path
      records := records
      messages := step.flatMap (·.2)
      result := if isArr then .arr parsed else parsed.headD .undefined }
  (meta,
   { st with fileCache := (path, meta) :: st.fileCache },
   .fileRead path :: (List.range list.length).map (.validated path))

/-- `load`: normalize the path; if a changed-path hint is present, does
not equal this path, and a File Representation is cached for this path,
return the cached representation unchanged; otherwise load afresh. -/
def load (env : Env) (path₀ : String) (schema : Schema) (changed : Option String)
    (st : BuildState) : VeliteFile × BuildState × List Event :=
  let path := env.normalize path₀
  match changed, st.fileCache.lookup path with
  | some c, some exists_ =>
      if path ≠ c then (exists_, st, [])
      else loadFresh env path schema st
  | _, _ => loadFresh env path schema st

/-- The file fan-out of one freshly resolved collection:
`Promise.all(paths.map(path => load(config, path, schema, changed)))`,
embedded sequentially. -/
def loadMany (env : Env) (schema : Schema) (changed : Option String) :
    List String → BuildState → List VeliteFile × BuildState × List Event
  | [], st => ([], st, [])
  | p :: ps, st =>
      let (f, st₁, ev₁) := load env p schema changed st
      let (fs, st₂, ev₂) := loadMany env schema changed ps st₁
      (f :: fs, st₂, ev₁ ++ ev₂)

/-- The re-glob-and-re-parse branch of one collection's resolution:
glob the collection's patterns over the content root, load every
matched file (passing the changed-path hint through), and store the
resulting list in the `resolved` cache under the collection's name. -/
def resolveCollectionFresh (env : Env) (changed : Option String) (name : String)
    (col : Collection) (st : BuildState) : List VeliteFile × BuildState × List Event :=
  let paths := env.glob col.pattern
  let (files, st₁, ev) := loadMany env col.schema changed paths st
  (files,
   { st₁ with resolvedCache := (name, files) :: st₁.resolvedCache },
   .globbed name :: ev)

/-- One collection's resolution: if a changed-path hint is present, it
does not match this collection's patterns, and the `resolved` cache has
an entry for this collection's name, reuse the cached list verbatim;
otherwise re-glob and re-parse. -/
def resolveCollection (env : Env) (changed : Option String) (name : String)
    (col : Collection) (st : BuildState) : List VeliteFile × BuildState × List Event :=
  match changed, st.resolvedCache.lookup name with
  | some c, some files =>
      if env.contains c col.pattern then resolveCollectionFresh env changed name col st
      else (files, st, [])
  | _, _ => resolveCollectionFresh env changed name col st

/-- The collection fan-out of `resolve`:
`Promise.all(Object.entries(collections).map(...))`, embedded
sequentially.  Each entry keeps its collection declaration alongside
the files (in the source the declaration is re-fetched as
`collections[name]`, which is the same object since object keys are
unique). -/
def resolveEntries (env : Env) (changed : Option String) :
    List (String × Collection) → BuildState →
    List (String × Collection × List VeliteFile) × BuildState × List Event
  | [], st => ([], st, [])
  | (name, col) :: rest, st =>
      let (files, st₁, ev₁) := resolveCollection env changed name col st
      let (entries, st₂, ev₂) := resolveEntries env changed rest st₁
      ((name, col, files) :: entries, st₂, ev₁ ++ ev₂)

/-- `reporter(allFiles, { quiet: true })` produces a non-empty report
exactly when some file carries at least one message. -/
def entriesHaveIssues (entries : List (String × Collection × List VeliteFile)) : Bool :=
  (entries.flatMap fun e => e.2.2).any fun f => !f.messages.isEmpty

/-- Per-collection aggregate data:
`files.flatMap(file => file.result).filter(Boolean)`.  JavaScript's
`flatMap` spreads a result that is an array and wraps any other value;
`filter(Boolean)` keeps only truthy values. -/
def collectionData (files : List VeliteFile) : List JSValue :=
  (files.flatMap fun f =>
    match f.result with
    | .arr xs => xs
    | v => [v]).filter JSValue.truthy

/-- Aggregation of one collection: for a `single` collection, zero data
elements throws `no data resolved`, more than one warns and the first
element wins; otherwise the aggregate value is the full data list. -/
def aggregateOne (name : String) (col : Collection) (files : List VeliteFile) :
    Except BuildError (JSValue × List Event) :=
  let data := collectionData files
  if col.single then
    match data with
    | [] => .error (.noDataResolved name)
    | [d] => .ok (d, [])
    | d :: _ :: _ => .ok (d, [.warnedMultiple name])
  else .ok (.arr data, [])

/-- `Object.fromEntries(entries.map(...))`: aggregate every entry in
order, stopping at the first thrown error (warnings emitted before the
throw are kept). -/
def aggregateEntries :
    List (String × Collection × List VeliteFile) →
    Except BuildError (List (String × JSValue)) × List Event
  | [] => (.ok [], [])
  | (name, col, files) :: rest =>
      match aggregateOne name col files with
      | .error e => (.error e, [])
      | .ok (v, ev) =>
          match aggregateEntries rest with
          | (.error e, ev') => (.error e, ev ++ ev')
          | (.ok vs, ev') => (.ok ((name, v) :: vs), ev ++ ev')

/-- `shouldOutput = (await prepare(result)) ?? true` when a `prepare`
hook is configured, `true` otherwise. -/
def shouldOutputOf (cfg : Config) (result : List (String × JSValue)) : Bool :=
  match cfg.prepare with
  | some p => (p result).getD true
  | none => true

/-- One resolution pass (`resolve`): resolve every collection (with
selective cache reuse driven by the changed-path hint), report
accumulated diagnostics — warning always, fatal under `strict` —
aggregate per-collection data under the cardinality rules, consult the
`prepare` hook on whether to emit data output, always emit assets
output, and finally invoke the `complete` hook. -/
def resolve (env : Env) (cfg : Config) (changed : Option String) (st : BuildState) :
    Except BuildError (List (String × JSValue)) × BuildState × List Event :=
  let (entries, st₁, ev₁) := resolveEntries env changed cfg.collections st
  let hasIssues := entriesHaveIssues entries
  let ev₂ := ev₁ ++ if hasIssues then [Event.warnedIssues] else []
  if hasIssues && cfg.strict then (.error .schemaValidationFailed, st₁, ev₂)
  else
    match aggregateEntries entries with
    | (.error e, ev₃) => (.error e, st₁, ev₂ ++ ev₃)
    | (.ok result, ev₃) =>
        let (shouldOutput, ev₄) :=
          match cfg.prepare with
          | some _ => (shouldOutputOf cfg result, [Event.prepared])
          | none => (true, [])
        let ev₅ := if shouldOutput then [Event.dataOutput] else [Event.warnedPreventOutput]
        let ev₆ := ev₅ ++ [Event.assetsOutput] ++ if cfg.hasComplete then [Event.completed] else []
        (.ok result, st₁, ev₂ ++ ev₃ ++ ev₄ ++ ev₆)

/-- Kind of a file-system watcher event (chokidar's `'all'` handler). -/
inductive FsEventKind where
  | add : FsEventKind
  | change : FsEventKind
  | unlink : FsEventKind
  | addDir : FsEventKind
  | unlinkDir : FsEventKind
deriving Repr, DecidableEq

/-- One delivered watcher event: a kind and a possibly-absent path
(relative to the content root). -/
structure WatchEvent where
  kind : FsEventKind
  filename : Option String
deriving Repr, DecidableEq

/-- Outcome of handling one watcher event.  `restarted` means the
config file or one of its import dependencies changed: the watcher was
closed and a full `build` was started from scratch.  `rebuildFailed`
means the incremental pass threw; the error was caught at the handler
boundary and logged as a warning. -/
inductive WatchOutcome where
  | ignored : WatchOutcome
  | restarted : WatchOutcome
  | rebuilt : WatchOutcome
  | rebuildFailed : WatchOutcome
deriving Repr, DecidableEq

/-- The watch handler first deletes every `config.cache` entry whose
stored value equals the changed path. -/
def deleteCacheFor (cfg : Config) (filename : String) : Config :=
  { cfg with cache := cfg.cache.filter fun kv => kv.2 ≠ filename }

/-- The `'all'` event handler installed by `watch`: ignore directory
events and events without a path; join the path with the content root;
drop loader-cache entries for the changed path; on a config-file (or
config-import) change close the watcher and restart the whole build;
otherwise run one incremental `resolve` scoped to the changed path,
catching any thrown error as a warning. -/
def handleEvent (env : Env) (cfg : Config) (ev : WatchEvent) (st : BuildState) :
    WatchOutcome × Config × BuildState × List Event :=
  match ev.kind, ev.filename with
  | .addDir, _ => (.ignored, cfg, st, [])
  | .unlinkDir, _ => (.ignored, cfg, st, [])
  | _, none => (.ignored, cfg, st, [])
  | _, some fn =>
      let filename := env.join cfg.root fn
      let cfg' := deleteCacheFor cfg filename
      if cfg'.configImports.contains filename then (.restarted, cfg', st, [])
      else
        match resolve env cfg' (some filename) st with
        | (.ok _, st', evs) => (.rebuilt, cfg', st', evs)
        | (.error _, st', evs) => (.rebuildFailed, cfg', st', evs)

/-- The watch loop over a stream of delivered events: each event is
handled in turn; handling continues after every outcome except
`restarted`, which closes the watcher (the handler returns into a fresh
`build`). -/
def processEvents (env : Env) :
    Config → BuildState → List WatchEvent → List WatchOutcome × Config × BuildState
  | cfg, st, [] => ([], cfg, st)
  | cfg, st, e :: es =>
      let (o, cfg', st', _) := handleEvent env cfg e st
      if o = .restarted then ([o], cfg', st')
      else
        let (os, cfg'', st'') := processEvents env cfg' st' es
        (o :: os, cfg'', st'')

/-- A custom validation issue added via `ctx.addIssue({ code: 'custom',
message })` by the markdown transform. -/
structure CustomIssue where
  code : String
  message : String
deriving Repr, DecidableEq

/-- The markdown field transform (src/schemas/markdown.ts), with the
unified markdown-to-HTML pipeline abstracted as an external collaborator
`pipeline` that either produces the serialized HTML or fails with an
error message (a thrown error's `message`).  A `none` input value
models a JavaScript `undefined`/`null` field; when the file's body
content exists it is substituted first.  On pipeline success the HTML
string is the transform's value; on failure the error message is
recorded as a custom issue and the (possibly substituted) input value
is returned unchanged. -/
def markdownTransform (pipeline : Option String → Except String String)
    (fileContent : Option String) (value₀ : Option String) :
    Option String × List CustomIssue :=
  let value := if value₀.isNone && fileContent.isSome then fileContent else value₀
  match pipeline value with
  | .ok html => (some html, [])
  | .error msg => (value, [⟨"custom", msg⟩])

/-! ### Helper lemmas: classifying the events of each phase -/

/-- Events the collection-resolution fan-out can emit: glob calls,
file reads, validator invocations. -/
def Event.isLoadEffect : Event → Bool
  | .globbed _ => true
  | .fileRead _ => true
  | .validated _ _ => true
  | _ => false

/-- Events the aggregation phase can emit: only the multiple-records
warning of a `single` collection. -/
def Event.isMultipleWarning : Event → Bool
  | .warnedMultiple _ => true
  | _ => false

theorem loadFresh_events_eq (env : Env) (p : String) (schema : Schema)
    (st : BuildState) :
    (loadFresh env p schema st).2.2 =
      .fileRead p ::
        (List.range (recordList (env.contents p)).length).map (.validated p) := rfl

theorem loadFresh_events (env : Env) (p : String) (schema : Schema)
    (st : BuildState) :
    ∀ e ∈ (loadFresh env p schema st).2.2, e.isLoadEffect = true := by
  intro e he
  rw [loadFresh_events_eq] at he
  rcases List.mem_cons.mp he with h | h
  · subst h; rfl
  · rcases List.mem_map.mp h with ⟨i, _, hi⟩
    subst hi; rfl

theorem load_events (env : Env) (p : String) (schema : Schema) (ch : Option String)
    (st : BuildState) :
    ∀ e ∈ (load env p schema ch st).2.2, e.isLoadEffect = true := by
  intro e he
  unfold load at he
  dsimp only at he
  cases ch with
  | none =>
      cases hl : List.lookup (env.normalize p) st.fileCache <;> rw [hl] at he <;>
        exact loadFresh_events env _ schema st e he
  | some c =>
      cases hl : List.lookup (env.normalize p) st.fileCache with
      | none =>
          rw [hl] at he
          exact loadFresh_events env _ schema st e he
      | some f =>
          rw [hl] at he
          dsimp only at he
          by_cases hc : env.normalize p ≠ c
          · rw [if_pos hc] at he
            simp at he
          · rw [if_neg hc] at he
            exact loadFresh_events env _ schema st e he

theorem loadMany_events (env : Env) (schema : Schema) (ch : Option String) :
    ∀ (paths : List String) (st : BuildState),
      ∀ e ∈ (loadMany env schema ch paths st).2.2, e.isLoadEffect = true := by
  intro paths
  induction paths with
  | nil => intro st e he; simp [loadMany] at he
  | cons p ps ih =>
      intro st e he
      unfold loadMany at he
      rcases hld : load env p schema ch st with ⟨f, st₁, ev₁⟩
      rw [hld] at he
      dsimp only at he
      rcases hlm : loadMany env schema ch ps st₁ with ⟨fs, st₂, ev₂⟩
      rw [hlm] at he
      dsimp only at he
      rcases List.mem_append.mp he with h | h
      · exact load_events env p schema ch st e (by rw [hld]; exact h)
      · exact ih st₁ e (by rw [hlm]; exact h)

theorem resolveCollectionFresh_events (env : Env) (ch : Option String) (name : String)
    (col : Collection) (st : BuildState) :
    ∀ e ∈ (resolveCollectionFresh env ch name col st).2.2, e.isLoadEffect = true := by
  intro e he
  unfold resolveCollectionFresh at he
  dsimp only at he
  rcases hlm : loadMany env col.schema ch (env.glob col.pattern) st with ⟨fs, st₁, ev⟩
  rw [hlm] at he
  dsimp only at he
  rcases List.mem_cons.mp he with h | h
  · subst h; rfl
  · exact loadMany_events env col.schema ch (env.glob col.pattern) st e
      (by rw [hlm]; exact h)

theorem resolveCollection_events (env : Env) (ch : Option String) (name : String)
    (col : Collection) (st : BuildState) :
    ∀ e ∈ (resolveCollection env ch name col st).2.2, e.isLoadEffect = true := by
  intro e he
  unfold resolveCollection at he
  cases ch with
  | none =>
      cases hl : List.lookup name st.resolvedCache <;> rw [hl] at he <;>
        exact resolveCollectionFresh_events env none name col st e he
  | some c =>
      cases hl : List.lookup name st.resolvedCache with
      | none =>
          rw [hl] at he
          exact resolveCollectionFresh_events env (some c) name col st e he
      | some files =>
          rw [hl] at he
          dsimp only at he
          by_cases hc : env.contains c col.pattern = true
          · rw [if_pos hc] at he
            exact resolveCollectionFresh_events env (some c) name col st e he
          · rw [if_neg hc] at he
            simp at he

theorem resolveEntries_events (env : Env) (ch : Option String) :
    ∀ (cols : List (String × Collection)) (st : BuildState),
      ∀ e ∈ (resolveEntries env ch cols st).2.2, e.isLoadEffect = true := by
  intro cols
  induction cols with
  | nil => intro st e he; simp [resolveEntries] at he
  | cons nc rest ih =>
      intro st e he
      unfold resolveEntries at he
      rcases nc with ⟨name, col⟩
      rcases hrc : resolveCollection env ch name col st with ⟨files, st₁, ev₁⟩
      rw [hrc] at he
      dsimp only at he
      rcases hre : resolveEntries env ch rest st₁ with ⟨entries, st₂, ev₂⟩
      rw [hre] at he
      dsimp only at he
      rcases List.mem_append.mp he with h | h
      · exact resolveCollection_events env ch name col st e (by rw [hrc]; exact h)
      · exact ih st₁ e (by rw [hre]; exact h)

theorem aggregateOne_events (name : String) (col : Collection)
    (files : List VeliteFile) (v : JSValue) (ev : List Event)
    (h : aggregateOne name col files = .ok (v, ev)) :
    ∀ e ∈ ev, e.isMultipleWarning = true := by
  intro e he
  unfold aggregateOne at h
  by_cases hs : col.single = true
  · rw [if_pos hs] at h
    rcases hd : collectionData files with _ | ⟨d, _ | ⟨d', rest⟩⟩ <;> rw [hd] at h
    · cases h
    · cases h
      simp at he
    · cases h
      rcases List.mem_singleton.mp he with rfl
      rfl
  · rw [if_neg hs] at h
    cases h
    simp at he

theorem aggregateEntries_events :
    ∀ (entries : List (String × Collection × List VeliteFile)),
      ∀ e ∈ (aggregateEntries entries).2, e.isMultipleWarning = true := by
  intro entries
  induction entries with
  | nil => intro e he; simp [aggregateEntries] at he
  | cons nfc rest ih =>
      intro e he
      rcases nfc with ⟨name, col, files⟩
      unfold aggregateEntries at he
      cases hone : aggregateOne name col files with
      | error err => rw [hone] at he; simp at he
      | ok vev =>
          rcases vev with ⟨v, ev⟩
          rw [hone] at he
          dsimp only at he
          cases hrest : aggregateEntries rest with
          | mk res ev' =>
              rw [hrest] at he
              cases res <;> dsimp only at he <;>
                rcases List.mem_append.mp he with h | h
              · exact aggregateOne_events name col files v ev hone e h
              · exact ih e (by rw [hrest]; exact h)
              · exact aggregateOne_events name col files v ev hone e h
              · exact ih e (by rw [hrest]; exact h)

/-! ### Helper lemmas: a hint-less pass does not read the caches -/

/-- With no changed-path hint, `load` never consults the File
Representation cache. -/
theorem load_none (env : Env) (p : String) (schema : Schema) (st : BuildState) :
    load env p schema none st = loadFresh env (env.normalize p) schema st := rfl

/-- The file a hint-less `load` produces, and the events it emits,
do not depend on the incoming state. -/
theorem load_none_state_free (env : Env) (p : String) (schema : Schema)
    (st st' : BuildState) :
    (load env p schema none st).1 = (load env p schema none st').1 ∧
    (load env p schema none st).2.2 = (load env p schema none st').2.2 :=
  ⟨rfl, rfl⟩

/-- Unfolding equation of `loadMany` on a non-empty path list. -/
theorem loadMany_cons (env : Env) (schema : Schema) (ch : Option String)
    (p : String) (ps : List String) (st : BuildState) :
    loadMany env schema ch (p :: ps) st =
      ((load env p schema ch st).1 ::
         (loadMany env schema ch ps (load env p schema ch st).2.1).1,
       (loadMany env schema ch ps (load env p schema ch st).2.1).2.1,
       (load env p schema ch st).2.2 ++
         (loadMany env schema ch ps (load env p schema ch st).2.1).2.2) := rfl

/-- The files a hint-less file fan-out produces, and the events it
emits, do not depend on the incoming state. -/
theorem loadMany_none_state_free (env : Env) (schema : Schema) :
    ∀ (paths : List String) (st st' : BuildState),
      (loadMany env schema none paths st).1 = (loadMany env schema none paths st').1 ∧
      (loadMany env schema none paths st).2.2 =
        (loadMany env schema none paths st').2.2 := by
  intro paths
  induction paths with
  | nil => exact fun st st' => ⟨rfl, rfl⟩
  | cons p ps ih =>
      intro st st'
      rw [loadMany_cons, loadMany_cons]
      refine ⟨?_, ?_⟩
      · rw [(load_none_state_free env p schema st st').1,
          (ih (load env p schema none st).2.1 (load env p schema none st').2.1).1]
      · rw [(load_none_state_free env p schema st st').2,
          (ih (load env p schema none st).2.1 (load env p schema none st').2.1).2]

/-- With no changed-path hint, the Collection Resolver never consults
the `resolved` cache. -/
theorem resolveCollection_none (env : Env) (name : String) (col : Collection)
    (st : BuildState) :
    resolveCollection env none name col st =
      resolveCollectionFresh env none name col st := rfl

/-- The files a hint-less collection resolution produces, and the
events it emits, do not depend on the incoming state. -/
theorem resolveCollection_none_state_free (env : Env) (name : String)
    (col : Collection) (st st' : BuildState) :
    (resolveCollection env none name col st).1 =
      (resolveCollection env none name col st').1 ∧
    (resolveCollection env none name col st).2.2 =
      (resolveCollection env none name col st').2.2 := by
  rw [resolveCollection_none, resolveCollection_none]
  unfold resolveCollectionFresh
  dsimp only
  have h := loadMany_none_state_free env col.schema (env.glob col.pattern) st st'
  rcases h1 : loadMany env col.schema none (env.glob col.pattern) st with ⟨fs, st₁, ev⟩
  rcases h2 : loadMany env col.schema none (env.glob col.pattern) st' with ⟨fs', st₁', ev'⟩
  rw [h1, h2] at h
  dsimp only at h
  rw [h.1, h.2]
  exact ⟨rfl, rfl⟩

/-- The entries a hint-less pass produces, and the events it emits, do
not depend on the incoming state. -/
theorem resolveEntries_none_state_free (env : Env) :
    ∀ (cols : List (String × Collection)) (st st' : BuildState),
      (resolveEntries env none cols st).1 = (resolveEntries env none cols st').1 ∧
      (resolveEntries env none cols st).2.2 =
        (resolveEntries env none cols st').2.2 := by
  intro cols
  induction cols with
  | nil => exact fun st st' => ⟨rfl, rfl⟩
  | cons nc rest ih =>
      intro st st'
      rcases nc with ⟨name, col⟩
      unfold resolveEntries
      have hc := resolveCollection_none_state_free env name col st st'
      rcases h1 : resolveCollection env none name col st with ⟨files, st₁, ev₁⟩
      rcases h2 : resolveCollection env none name col st' with ⟨files', st₁', ev₁'⟩
      rw [h1, h2] at hc
      dsimp only at hc
      obtain ⟨rfl, rfl⟩ := hc
      dsimp only
      have hr := ih st₁ st₁'
      rcases h3 : resolveEntries env none rest st₁ with ⟨entries, st₂, ev₂⟩
      rcases h4 : resolveEntries env none rest st₁' with ⟨entries', st₂', ev₂'⟩
      rw [h3, h4] at hr
      dsimp only at hr
      obtain ⟨rfl, rfl⟩ := hr
      exact ⟨rfl, rfl⟩

/-- The outcome of a hint-less resolution pass (its aggregate or
error) does not depend on the incoming state. -/
theorem resolve_none_state_free (env : Env) (cfg : Config) (st st' : BuildState) :
    (resolve env cfg none st).1 = (resolve env cfg none st').1 := by
  have hent := resolveEntries_none_state_free env cfg.collections st st'
  unfold resolve
  rcases hE : resolveEntries env none cfg.collections st with ⟨entries, st₁, ev₁⟩
  rcases hE' : resolveEntries env none cfg.collections st' with ⟨entries', st₁', ev₁'⟩
  rw [hE, hE'] at hent
  dsimp only at hent
  obtain ⟨rfl, -⟩ := hent
  dsimp only
  by_cases hI : (entriesHaveIssues entries && cfg.strict) = true
  · rw [if_pos hI, if_pos hI]
  · rw [if_neg hI, if_neg hI]
    rcases hA : aggregateEntries entries with ⟨res, ev₃⟩
    cases res <;> dsimp only

/-! ### Claim theorems -/

/-- C1: for every resolution pass given a changed-path hint, and for
every collection whose glob patterns the changed path does not match
and for which a `resolved` cache entry exists under the collection's
name, the Collection Resolver returns the exact cached File
Representation list, leaves the caches untouched, and performs no glob
matching and no file parsing for that collection (no events at all). -/
theorem collection_skip_uses_cache (env : Env) (c name : String) (col : Collection)
    (st : BuildState) (files : List VeliteFile)
    (hmatch : env.contains c col.pattern = false)
    (hcache : st.resolvedCache.lookup name = some files) :
    resolveCollection env (some c) name col st = (files, st, []) := by
  unfold resolveCollection
  rw [hcache]
  simp [hmatch]

/-- Environment of the concrete skip scenario: every path is reported
as not matching any pattern. -/
def envSkip : Env :=
  { normalize := id
    join := fun a b => a ++ "/" ++ b
    glob := fun _ => []
    contains := fun _ _ => false
    contents := fun _ => .null }

def fileSkip : VeliteFile :=
  { path := "/r/posts/a.md", records := .null, messages := [], result := .str "kept" }

def colSkip : Collection :=
  { pattern := ["posts/**"], schema := fun _ => .success .null, single := false }

def stSkip : BuildState :=
  { fileCache := [], resolvedCache := [("posts", [fileSkip])] }

theorem collection_skip_uses_cache_witness :
    envSkip.contains "/r/pages/b.md" colSkip.pattern = false ∧
    stSkip.resolvedCache.lookup "posts" = some [fileSkip] ∧
    resolveCollection envSkip (some "/r/pages/b.md") "posts" colSkip stSkip =
      ([fileSkip], stSkip, []) :=
  ⟨rfl, rfl,
   collection_skip_uses_cache envSkip "/r/pages/b.md" "posts" colSkip stSkip [fileSkip]
     rfl rfl⟩

/-- C4 (amended): for every `single`-cardinality collection, the
aggregate value is the first element of the flattened,
truthiness-filtered validated-result sequence (the source filters with
`.filter(Boolean)`, dropping falsy successful outputs along with the
absent slots of failed records); an empty filtered sequence throws the
fatal `no data resolved` error; more than one element emits the
non-fatal multiple-records warning and the first element still
wins. -/
theorem single_cardinality_rules (name : String) (col : Collection)
    (files : List VeliteFile) (hs : col.single = true) :
    (collectionData files = [] →
      aggregateOne name col files = .error (.noDataResolved name)) ∧
    (∀ d, collectionData files = [d] →
      aggregateOne name col files = .ok (d, [])) ∧
    (∀ d d' rest, collectionData files = d :: d' :: rest →
      aggregateOne name col files = .ok (d, [.warnedMultiple name])) := by
  refine ⟨fun h => ?_, fun d h => ?_, fun d d' rest h => ?_⟩ <;>
    simp [aggregateOne, hs, h]

def colSingle : Collection :=
  { pattern := ["home.yml"], schema := fun _ => .success .null, single := true }

def fileSingle : VeliteFile :=
  { path := "/r/home.yml", records := .null, messages := []
    result := .arr [.str "first", .str "second"] }

theorem single_cardinality_rules_witness :
    colSingle.single = true ∧
    collectionData [fileSingle] = [.str "first", .str "second"] ∧
    aggregateOne "home" colSingle [fileSingle] =
      .ok (.str "first", [.warnedMultiple "home"]) :=
  ⟨rfl, rfl,
   (single_cardinality_rules "home" colSingle [fileSingle] rfl).2.2
     (.str "first") (.str "second") [] rfl⟩

/-- C5: for every Record Parser call given a changed-path hint that
does not equal the file's normalized path, when a File Representation
is already cached for that path the parser returns the cached
representation unchanged with no file read and no validation;
otherwise (no hint, hint equal to the path, or no cache entry) it runs
the fresh load, which reads the file once and validates each of its
records. -/
theorem parser_short_circuit (env : Env) (schema : Schema) (st : BuildState)
    (p c : String) (f : VeliteFile)
    (hne : env.normalize p ≠ c)
    (hcache : st.fileCache.lookup (env.normalize p) = some f) :
    load env p schema (some c) st = (f, st, []) ∧
    (∀ (q : String) (st₂ : BuildState) (ch : Option String),
      (∀ c', ch = some c' →
        env.normalize q = c' ∨ st₂.fileCache.lookup (env.normalize q) = none) →
      load env q schema ch st₂ = loadFresh env (env.normalize q) schema st₂) ∧
    (∀ (q : String) (st₂ : BuildState),
      (loadFresh env q schema st₂).2.2 =
        .fileRead q ::
          (List.range (recordList (env.contents q)).length).map (.validated q)) := by
  refine ⟨?_, ?_, ?_⟩
  · unfold load
    dsimp only
    rw [hcache]
    simp [hne]
  · intro q st₂ ch h
    unfold load
    dsimp only
    cases ch with
    | none => cases List.lookup (env.normalize q) st₂.fileCache <;> rfl
    | some c' =>
        cases hl : List.lookup (env.normalize q) st₂.fileCache with
        | none => rfl
        | some g =>
            rcases h c' rfl with h₁ | h₂
            · simp [h₁]
            · rw [hl] at h₂
              cases h₂
  · intro q st₂
    rfl

def envParse : Env :=
  { normalize := id
    join := fun a b => a ++ "/" ++ b
    glob := fun _ => ["/r/posts/a.md"]
    contains := fun _ _ => true
    contents := fun _ => .str "raw" }

def fileParse : VeliteFile :=
  { path := "/r/posts/a.md", records := .str "raw", messages := [], result := .str "old" }

def stParse : BuildState :=
  { fileCache := [("/r/posts/a.md", fileParse)], resolvedCache := [] }

theorem parser_short_circuit_witness :
    envParse.normalize "/r/posts/a.md" ≠ "/r/posts/b.md" ∧
    stParse.fileCache.lookup (envParse.normalize "/r/posts/a.md") = some fileParse ∧
    load envParse "/r/posts/a.md" (fun _ => .success .null) (some "/r/posts/b.md") stParse =
      (fileParse, stParse, []) :=
  ⟨by decide, rfl,
   (parser_short_circuit envParse (fun _ => .success .null) stParse
     "/r/posts/a.md" "/r/posts/b.md" fileParse (by decide) rfl).1⟩

/-- C9: for every watch-mode change event whose joined path is the
config file or one of its import dependencies, the coordinator closes
the watcher and restarts the whole build from scratch (`restarted`
outcome): the resolution caches are left untouched and no incremental
resolve scoped to the changed path runs (no pass events at all).  The
handler's only other effect is the loader-cache deletion for the
changed path, which the full restart discards anyway. -/
theorem config_change_restarts (env : Env) (cfg : Config) (st : BuildState)
    (k : FsEventKind) (fn : String)
    (hk : k ≠ .addDir) (hk' : k ≠ .unlinkDir)
    (hin : cfg.configImports.contains (env.join cfg.root fn) = true) :
    handleEvent env cfg ⟨k, some fn⟩ st =
      (.restarted, deleteCacheFor cfg (env.join cfg.root fn), st, []) := by
  have hin' : (deleteCacheFor cfg (env.join cfg.root fn)).configImports.contains
      (env.join cfg.root fn) = true := hin
  unfold handleEvent
  cases k with
  | addDir => exact absurd rfl hk
  | unlinkDir => exact absurd rfl hk'
  | add => dsimp only; rw [hin']; simp
  | change => dsimp only; rw [hin']; simp
  | unlink => dsimp only; rw [hin']; simp

/-- A collection whose schema rejects every record, used to drive a
failing incremental pass in the watch-mode scenarios. -/
def colFail : Collection :=
  { pattern := ["posts/**"]
    schema := fun _ => .failure [⟨"invalid title", ["title"]⟩]
    single := false }

def cfgWatch : Config :=
  { root := "/r"
    strict := true
    collections := [("posts", colFail)]
    prepare := none
    hasComplete := false
    configPath := "/r/velite.config.ts"
    configImports := ["/r/velite.config.ts", "/r/shared.ts"]
    cache := [("entry-a", "/r/velite.config.ts"), ("entry-b", "/r/posts/a.md")] }

theorem config_change_restarts_witness :
    (FsEventKind.change ≠ .addDir) ∧ (FsEventKind.change ≠ .unlinkDir) ∧
    cfgWatch.configImports.contains (envParse.join cfgWatch.root "velite.config.ts") = true ∧
    handleEvent envParse cfgWatch ⟨.change, some "velite.config.ts"⟩ ⟨[], []⟩ =
      (.restarted, deleteCacheFor cfgWatch "/r/velite.config.ts", ⟨[], []⟩, []) :=
  ⟨by decide, by decide, rfl,
   config_change_restarts envParse cfgWatch ⟨[], []⟩ .change "velite.config.ts"
     (by decide) (by decide) rfl⟩

/-- Unfolding equation of `processEvents` for a delivered event: handle
it, stop on `restarted`, continue with the rest otherwise. -/
theorem processEvents_cons (env : Env) (cfg : Config) (st : BuildState)
    (e : WatchEvent) (es : List WatchEvent) :
    processEvents env cfg st (e :: es) =
      (if (handleEvent env cfg e st).1 = .restarted then
        ([(handleEvent env cfg e st).1], (handleEvent env cfg e st).2.1,
         (handleEvent env cfg e st).2.2.1)
      else
        ((handleEvent env cfg e st).1 ::
            (processEvents env (handleEvent env cfg e st).2.1
              (handleEvent env cfg e st).2.2.1 es).1,
         (processEvents env (handleEvent env cfg e st).2.1
            (handleEvent env cfg e st).2.2.1 es).2)) := rfl

/-! ### C2: array-shaped files -/

/-- The per-record step of `loadFresh` on an array-shaped file: the
record at index `index` is validated with contextual path `[index]`;
success keeps the output, failure yields an `undefined` slot plus one
message per issue. -/
def arrayStep (schema : Schema) : Nat × JSValue → JSValue × List Message
  | (index, item) =>
      match safeParseWithPath schema [toString index] item with
      | .success d => (d, ([] : List Message))
      | .failure issues =>
          (JSValue.undefined,
           issues.map fun (i : Issue) => ⟨i.message, String.intercalate "." i.path⟩)

/-- The value a record contributes to the parsed sequence: its
validated output on success, `undefined` on failure. -/
def outcomeValue (schema : Schema) (item : JSValue) : JSValue :=
  match schema item with
  | .success d => d
  | .failure _ => JSValue.undefined

/-- Stated from the claim's words, for comparison with the code: the
successful validation outputs of a file's records, in input order (the
claim's "N successful outputs"). -/
def successfulOutputs (schema : Schema) : List JSValue → List JSValue
  | [] => []
  | item :: rest =>
      match schema item with
      | .success d => d :: successfulOutputs schema rest
      | .failure _ => successfulOutputs schema rest

/-- Stated from the claim's words, for comparison with the code: every
issue of every failing record from index `n` on, as a message whose
source locator is the record's index joined with the issue's field
path. -/
def indexTaggedMessagesFrom (schema : Schema) : Nat → List JSValue → List Message
  | _, [] => []
  | n, item :: rest =>
      (match schema item with
       | .success _ => []
       | .failure issues =>
           issues.map fun (iss : Issue) =>
             ⟨iss.message, String.intercalate "." (toString n :: iss.path)⟩) ++
        indexTaggedMessagesFrom schema (n + 1) rest

/-- The claim's expected messages for a whole array-shaped file
(indices start at 0). -/
def indexTaggedMessages (schema : Schema) (items : List JSValue) : List Message :=
  indexTaggedMessagesFrom schema 0 items

/-- On an array-shaped file, `loadFresh` produces the File
Representation whose parsed slots and messages are the per-record
`arrayStep` outcomes. -/
theorem loadFresh_arr (env : Env) (p : String) (schema : Schema) (st : BuildState)
    (items : List JSValue) (harr : env.contents p = .arr items) :
    (loadFresh env p schema st).1 =
      { path := p
        records := .arr items
        messages := ((items.enum).map (arrayStep schema)).flatMap (·.2)
        result := .arr (((items.enum).map (arrayStep schema)).map (·.1)) } := by
  unfold loadFresh
  dsimp only
  rw [harr]
  rfl

/-- Unfolding equation of `indexTaggedMessagesFrom` on a non-empty
record list. -/
theorem indexTaggedMessagesFrom_cons (schema : Schema) (n : Nat) (item : JSValue)
    (rest : List JSValue) :
    indexTaggedMessagesFrom schema n (item :: rest) =
      (match schema item with
       | .success _ => []
       | .failure issues =>
           issues.map fun (iss : Issue) =>
             ⟨iss.message, String.intercalate "." (toString n :: iss.path)⟩) ++
        indexTaggedMessagesFrom schema (n + 1) rest := rfl

/-- The messages of the per-record steps are exactly the claim's
index-tagged messages. -/
theorem arrayStep_messages (schema : Schema) :
    ∀ (items : List JSValue) (n : Nat),
      ((items.enumFrom n).map (arrayStep schema)).flatMap (·.2) =
        indexTaggedMessagesFrom schema n items := by
  intro items
  induction items with
  | nil => intro n; rfl
  | cons item rest ih =>
      intro n
      simp only [List.enumFrom_cons, List.map_cons, List.flatMap_cons]
      rw [ih (n + 1), indexTaggedMessagesFrom_cons]
      congr 1
      unfold arrayStep safeParseWithPath
      dsimp only
      cases hs : schema item <;>
        simp [hs, List.map_map, Function.comp, List.singleton_append]

/-- The parsed slots of the per-record steps are the per-record
outcome values (success output or `undefined`). -/
theorem arrayStep_outputs (schema : Schema) :
    ∀ (items : List JSValue) (n : Nat),
      (((items.enumFrom n).map (arrayStep schema)).map (·.1)) =
        items.map (outcomeValue schema) := by
  intro items
  induction items with
  | nil => intro n; rfl
  | cons item rest ih =>
      intro n
      simp only [List.enumFrom_cons, List.map_cons]
      rw [ih (n + 1)]
      congr 1
      unfold arrayStep outcomeValue safeParseWithPath
      dsimp only
      cases hs : schema item <;> simp [hs]

/-- Truthiness-filtering the per-record outcome values is the same as
truthiness-filtering the successful outputs: the `undefined` slots of
failed records are falsy. -/
theorem filter_truthy_map_outcome (schema : Schema) :
    ∀ items : List JSValue,
      (items.map (outcomeValue schema)).filter JSValue.truthy =
        (successfulOutputs schema items).filter JSValue.truthy := by
  intro items
  induction items with
  | nil => rfl
  | cons item rest ih =>
      cases hs : schema item with
      | success d =>
          have h1 : outcomeValue schema item = d := by
            unfold outcomeValue
            rw [hs]
          simp only [List.map_cons, successfulOutputs, hs, h1, List.filter_cons]
          rw [ih]
      | failure iss =>
          have h1 : outcomeValue schema item = .undefined := by
            unfold outcomeValue
            rw [hs]
          simp only [List.map_cons, successfulOutputs, hs, h1, List.filter_cons]
          simp only [JSValue.truthy, Bool.false_eq_true, if_false]
          exact ih

/-- C2 (amended): for every array-shaped file, loading never raises a
validation failure as an error: each failing record contributes every
contained diagnostic issue as a message on the File Representation
(source locator: the record's index joined with the issue's field
path), the failing records' slots are dropped from the aggregate, and
the final aggregate for a collection resolving to that file is exactly
the *truthy* successful outputs, in input order — the source builds
the aggregate with `.filter(Boolean)`, which removes falsy successful
outputs along with the absent slots of failed records. -/
theorem array_file_aggregate (env : Env) (p : String) (schema : Schema)
    (st : BuildState) (items : List JSValue)
    (harr : env.contents p = .arr items) :
    (loadFresh env p schema st).1.messages = indexTaggedMessages schema items ∧
    collectionData [(loadFresh env p schema st).1] =
      (successfulOutputs schema items).filter JSValue.truthy ∧
    ∀ (name : String) (col : Collection), col.single = false →
      aggregateOne name col [(loadFresh env p schema st).1] =
        .ok (.arr ((successfulOutputs schema items).filter JSValue.truthy), []) := by
  have hmeta := loadFresh_arr env p schema st items harr
  have henum : items.enum = items.enumFrom 0 := rfl
  have h2 : collectionData [(loadFresh env p schema st).1] =
      (successfulOutputs schema items).filter JSValue.truthy := by
    rw [hmeta]
    unfold collectionData
    simp only [List.flatMap_cons, List.flatMap_nil, List.append_nil]
    rw [henum, arrayStep_outputs schema items 0, filter_truthy_map_outcome]
  refine ⟨?_, h2, ?_⟩
  · rw [hmeta]
    show ((items.enum).map (arrayStep schema)).flatMap (·.2) = _
    rw [henum]
    exact arrayStep_messages schema items 0
  · intro name col hsingle
    unfold aggregateOne
    dsimp only
    rw [hsingle]
    simp only [Bool.false_eq_true, if_false]
    rw [h2]

/-- A schema that accepts every record with the falsy output `null`. -/
def schemaNull : Schema := fun _ => .success .null

/-- Environment with a single array-shaped file of one record. -/
def envArr : Env :=
  { normalize := id
    join := fun a b => a ++ "/" ++ b
    glob := fun _ => ["/r/data.json"]
    contains := fun _ _ => true
    contents := fun _ => .arr [.str "x"] }

def colNull : Collection :=
  { pattern := ["data.json"], schema := schemaNull, single := false }

def cfgArr : Config :=
  { root := "/r"
    strict := false
    collections := [("records", colNull)]
    prepare := none
    hasComplete := false
    configPath := "/r/velite.config.ts"
    configImports := []
    cache := [] }

/-- C2 as stated is false on the code: a single array-shaped file with
N = 1 record that validates successfully (M = 0 failures) whose output
is the falsy value `null` yields an aggregate with zero entries for
its collection, not the promised N = 1 successful outputs, because
`resolve` filters the flattened results with `.filter(Boolean)`. -/
theorem array_aggregate_counterexample :
    schemaNull (.str "x") = .success .null ∧
    envArr.contents "/r/data.json" = .arr [.str "x"] ∧
    (resolve envArr cfgArr none ⟨[], []⟩).1 = .ok [("records", .arr [])] ∧
    (Except.ok [("records", JSValue.arr [])] :
        Except BuildError (List (String × JSValue))) ≠
      .ok [("records", .arr [.null])] :=
  ⟨rfl, rfl, by rfl, by simp⟩

theorem array_file_aggregate_witness :
    envArr.contents "/r/data.json" = .arr [.str "x"] ∧
    (loadFresh envArr "/r/data.json" schemaNull ⟨[], []⟩).1.messages =
      indexTaggedMessages schemaNull [.str "x"] ∧
    collectionData [(loadFresh envArr "/r/data.json" schemaNull ⟨[], []⟩).1] =
      (successfulOutputs schemaNull [.str "x"]).filter JSValue.truthy ∧
    colNull.single = false ∧
    aggregateOne "records" colNull
        [(loadFresh envArr "/r/data.json" schemaNull ⟨[], []⟩).1] =
      .ok (.arr ((successfulOutputs schemaNull [.str "x"]).filter JSValue.truthy), []) :=
  have h := array_file_aggregate envArr "/r/data.json" schemaNull ⟨[], []⟩
    [.str "x"] rfl
  ⟨rfl, h.1, h.2.1, rfl, h.2.2 "records" colNull rfl⟩

/-- `undefined` is the absent slot a failed validation leaves in a
result sequence; every other value is a present, validated result. -/
def JSValue.isDefined : JSValue → Bool
  | .undefined => false
  | _ => true

/-- Stated from the claim's words, for comparison with the code: the
flattened validated-result sequence — the files' `result` values
flattened, with only the absent slots of failed records removed
(the code instead filters with `.filter(Boolean)`, see
`collectionData`). -/
def specValidatedResults (files : List VeliteFile) : List JSValue :=
  (files.flatMap fun f =>
    match f.result with
    | .arr xs => xs
    | v => [v]).filter JSValue.isDefined

/-- A `single`-cardinality collection validated by `schemaNull`. -/
def colSingleNull : Collection :=
  { pattern := ["home.yml"], schema := schemaNull, single := true }

/-- A File Representation whose sole record validated successfully to
the falsy value `null`. -/
def fileNullResult : VeliteFile :=
  { path := "/r/home.yml", records := .str "x", messages := [], result := .null }

/-- Environment with one non-array file whose single record validates
successfully to `null`. -/
def envSingleNull : Env :=
  { normalize := id
    join := fun a b => a ++ "/" ++ b
    glob := fun _ => ["/r/home.yml"]
    contains := fun _ _ => true
    contents := fun _ => .str "x" }

def cfgSingleNull : Config :=
  { root := "/r"
    strict := false
    collections := [("home", colSingleNull)]
    prepare := none
    hasComplete := false
    configPath := "/r/velite.config.ts"
    configImports := []
    cache := [] }

/-- C4 as stated is false on the code: for a `single` collection whose
sole record validates successfully to the falsy value `null`, the
claim's flattened validated-result sequence is the non-empty `[null]`,
so the claim promises `null` as the aggregate value and no fatal
error; but `resolve` filters the sequence with `.filter(Boolean)`
before the cardinality check, sees zero elements, and throws
`no data resolved` — both at the aggregation step (`aggregateOne`) and
end to end through `resolve`. -/
theorem single_cardinality_counterexample :
    colSingleNull.single = true ∧
    schemaNull (.str "x") = .success .null ∧
    specValidatedResults [fileNullResult] = [.null] ∧
    aggregateOne "home" colSingleNull [fileNullResult] =
      .error (.noDataResolved "home") ∧
    (loadFresh envSingleNull "/r/home.yml" schemaNull ⟨[], []⟩).1.result = .null ∧
    (resolve envSingleNull cfgSingleNull none ⟨[], []⟩).1 =
      .error (.noDataResolved "home") ∧
    ((Except.error (BuildError.noDataResolved "home") :
        Except BuildError (JSValue × List Event)) ≠ .ok (.null, [])) :=
  ⟨rfl, rfl, rfl, rfl, rfl, by rfl, by simp⟩

/-- C3: for every resolution pass in which at least one diagnostic
message exists across all files: with `strict = true` the pass throws
`Schema validation failed` and output emission is never invoked (no
`dataOutput` event); with `strict = false` the same diagnostics are
emitted as a warning (`warnedIssues` event) and — whenever aggregation
succeeds and the `prepare` hook does not veto — output emission still
proceeds with the surviving valid records. -/
theorem strict_mode_gate (env : Env) (cfg : Config) (changed : Option String)
    (st : BuildState)
    (hIss : entriesHaveIssues (resolveEntries env changed cfg.collections st).1 = true) :
    (cfg.strict = true →
      (resolve env cfg changed st).1 = .error .schemaValidationFailed ∧
      Event.dataOutput ∉ (resolve env cfg changed st).2.2) ∧
    (cfg.strict = false →
      Event.warnedIssues ∈ (resolve env cfg changed st).2.2 ∧
      ∀ result ev₃,
        aggregateEntries (resolveEntries env changed cfg.collections st).1 =
          (.ok result, ev₃) →
        shouldOutputOf cfg result = true →
        Event.dataOutput ∈ (resolve env cfg changed st).2.2) := by
  rcases hE : resolveEntries env changed cfg.collections st with ⟨entries, st₁, ev₁⟩
  rw [hE] at hIss
  dsimp only at hIss
  have hIO : Event.dataOutput ∉ ev₁ := fun hmem => by
    have h := resolveEntries_events env changed cfg.collections st Event.dataOutput
      (by rw [hE]; exact hmem)
    simp [Event.isLoadEffect] at h
  constructor
  · intro hstrict
    have hres : resolve env cfg changed st =
        (.error .schemaValidationFailed, st₁, ev₁ ++ [Event.warnedIssues]) := by
      unfold resolve
      rw [hE]
      dsimp only
      rw [hIss, hstrict]
      simp
    rw [hres]
    refine ⟨rfl, ?_⟩
    dsimp only
    intro hmem
    rcases List.mem_append.mp hmem with h | h
    · exact hIO h
    · simp at h
  · intro hstrict
    unfold resolve
    rw [hE]
    dsimp only
    rw [hIss, hstrict]
    simp only [Bool.and_false, Bool.false_eq_true, if_false]
    constructor
    · cases hA : aggregateEntries entries with
      | mk res ev₃ =>
          cases res with
          | error e => simp
          | ok result =>
              cases hp : cfg.prepare <;> simp
    · intro result ev₃ hA hSO
      rw [hA]
      cases hp : cfg.prepare with
      | none => simp
      | some p =>
          dsimp only
          rw [show shouldOutputOf cfg result = true from hSO]
          simp

/-- The non-strict variant of the watch scenario configuration. -/
def cfgLax : Config :=
  { cfgWatch with strict := false }

theorem strict_mode_gate_witness :
    entriesHaveIssues (resolveEntries envParse none cfgLax.collections ⟨[], []⟩).1 = true ∧
    cfgLax.strict = false ∧
    aggregateEntries (resolveEntries envParse none cfgLax.collections ⟨[], []⟩).1 =
      (.ok [("posts", .arr [])], []) ∧
    shouldOutputOf cfgLax [("posts", .arr [])] = true ∧
    Event.warnedIssues ∈ (resolve envParse cfgLax none ⟨[], []⟩).2.2 ∧
    Event.dataOutput ∈ (resolve envParse cfgLax none ⟨[], []⟩).2.2 ∧
    entriesHaveIssues (resolveEntries envParse none cfgWatch.collections ⟨[], []⟩).1 = true ∧
    cfgWatch.strict = true ∧
    (resolve envParse cfgWatch none ⟨[], []⟩).1 = .error .schemaValidationFailed ∧
    Event.dataOutput ∉ (resolve envParse cfgWatch none ⟨[], []⟩).2.2 :=
  have h := (strict_mode_gate envParse cfgLax none ⟨[], []⟩ (by rfl)).2 rfl
  have h' := (strict_mode_gate envParse cfgWatch none ⟨[], []⟩ (by rfl)).1 rfl
  ⟨by rfl, rfl, by rfl, rfl, h.1, h.2 [("posts", .arr [])] [] (by rfl) rfl,
   by rfl, rfl, h'.1, h'.2⟩

/-- C6: resolving an unchanged content tree twice with no changed-path
hint and no cache reuse produces identical aggregate results — the
same records for every collection, in the same order: a hint-less pass
ignores both caches, so the second pass (run from the state the first
pass left behind) returns exactly what the first returned. -/
theorem resolve_idempotent (env : Env) (cfg : Config) (st : BuildState) :
    (resolve env cfg none ((resolve env cfg none st).2.1)).1 =
      (resolve env cfg none st).1 :=
  resolve_none_state_free env cfg ((resolve env cfg none st).2.1) st

/-- C7: for every resolution pass with a `prepare` hook configured
(and not aborted earlier by the strict gate or a fatal aggregation
error), the hook's return value decides whether data output is
emitted: returning `false` vetoes data output (a warning is logged
instead), any other return — including an absent one — lets data
output proceed; extracted assets are copied to the assets output
location in every case, veto or not. -/
theorem prepare_hook_gates_output (env : Env) (cfg : Config) (changed : Option String)
    (st : BuildState) (p : List (String × JSValue) → Option Bool)
    (result : List (String × JSValue)) (ev₃ : List Event)
    (hp : cfg.prepare = some p)
    (hgate : (entriesHaveIssues (resolveEntries env changed cfg.collections st).1 &&
        cfg.strict) = false)
    (hA : aggregateEntries (resolveEntries env changed cfg.collections st).1 =
        (.ok result, ev₃)) :
    Event.assetsOutput ∈ (resolve env cfg changed st).2.2 ∧
    (p result = some false →
      Event.dataOutput ∉ (resolve env cfg changed st).2.2 ∧
      Event.warnedPreventOutput ∈ (resolve env cfg changed st).2.2) ∧
    (p result ≠ some false →
      Event.dataOutput ∈ (resolve env cfg changed st).2.2) := by
  rcases hE : resolveEntries env changed cfg.collections st with ⟨entries, st₁, ev₁⟩
  rw [hE] at hgate hA
  dsimp only at hgate hA
  have hIO : Event.dataOutput ∉ ev₁ := fun hmem => by
    have h := resolveEntries_events env changed cfg.collections st Event.dataOutput
      (by rw [hE]; exact hmem)
    simp [Event.isLoadEffect] at h
  have hAgg : Event.dataOutput ∉ ev₃ := fun hmem => by
    have h := aggregateEntries_events entries Event.dataOutput (by rw [hA]; exact hmem)
    simp [Event.isMultipleWarning] at h
  have hres : resolve env cfg changed st =
      (.ok result, st₁,
       (ev₁ ++ if entriesHaveIssues entries then [Event.warnedIssues] else []) ++ ev₃ ++
         [Event.prepared] ++
         ((if shouldOutputOf cfg result then [Event.dataOutput]
           else [Event.warnedPreventOutput]) ++ [Event.assetsOutput] ++
          if cfg.hasComplete then [Event.completed] else [])) := by
    unfold resolve
    rw [hE]
    dsimp only
    rw [hgate, hA, hp]
    simp
  rw [hres]
  dsimp only
  refine ⟨by simp, fun hv => ?_, fun hv => ?_⟩
  · have hso : shouldOutputOf cfg result = false := by
      unfold shouldOutputOf
      rw [hp]
      dsimp only
      rw [hv]
      rfl
    rw [hso]
    simp only [Bool.false_eq_true, if_false]
    constructor
    · intro hmem
      rcases List.mem_append.mp hmem with h | h
      · rcases List.mem_append.mp h with h | h
        · rcases List.mem_append.mp h with h | h
          · rcases List.mem_append.mp h with h | h
            · exact hIO h
            · revert h
              split <;> simp
          · exact hAgg h
        · simp at h
      · rcases List.mem_append.mp h with h | h
        · rcases List.mem_append.mp h with h | h <;> simp at h
        · revert h
          split <;> simp
    · simp
  · have hso : shouldOutputOf cfg result = true := by
      unfold shouldOutputOf
      rw [hp]
      dsimp only
      cases hpr : p result with
      | none => rfl
      | some b =>
          cases b with
          | false => exact absurd hpr hv
          | true => rfl
    rw [hso]
    simp

/-- A collection whose schema accepts every record unchanged. -/
def colOk : Collection :=
  { pattern := ["posts/**"], schema := fun v => .success v, single := false }

/-- Configuration whose `prepare` hook vetoes output. -/
def cfgPrep : Config :=
  { root := "/r"
    strict := false
    collections := [("pages", colOk)]
    prepare := some fun _ => some false
    hasComplete := false
    configPath := "/r/velite.config.ts"
    configImports := ["/r/velite.config.ts"]
    cache := [] }

/-- Configuration whose `prepare` hook returns nothing (JavaScript
`undefined`). -/
def cfgPrepNone : Config :=
  { cfgPrep with prepare := some fun _ => none }

theorem prepare_hook_gates_output_witness :
    cfgPrep.prepare = some (fun _ => some false) ∧
    (entriesHaveIssues (resolveEntries envParse none cfgPrep.collections ⟨[], []⟩).1 &&
        cfgPrep.strict) = false ∧
    aggregateEntries (resolveEntries envParse none cfgPrep.collections ⟨[], []⟩).1 =
      (.ok [("pages", .arr [.str "raw"])], []) ∧
    Event.assetsOutput ∈ (resolve envParse cfgPrep none ⟨[], []⟩).2.2 ∧
    Event.dataOutput ∉ (resolve envParse cfgPrep none ⟨[], []⟩).2.2 ∧
    Event.warnedPreventOutput ∈ (resolve envParse cfgPrep none ⟨[], []⟩).2.2 ∧
    Event.dataOutput ∈ (resolve envParse cfgPrepNone none ⟨[], []⟩).2.2 ∧
    Event.assetsOutput ∈ (resolve envParse cfgPrepNone none ⟨[], []⟩).2.2 :=
  have h := prepare_hook_gates_output envParse cfgPrep none ⟨[], []⟩
    (fun _ => some false) [("pages", .arr [.str "raw"])] [] rfl (by rfl) (by rfl)
  have h' := prepare_hook_gates_output envParse cfgPrepNone none ⟨[], []⟩
    (fun _ => none) [("pages", .arr [.str "raw"])] [] rfl (by rfl) (by rfl)
  have hveto := h.2.1 rfl
  ⟨rfl, by rfl, by rfl, h.1, hveto.1, hveto.2, h'.2.2 (by simp), h'.1⟩

/-- C8: for every watch-mode file-change event (not a directory event)
whose path is not a config import, a failure of the triggered
incremental pass is caught at the handler boundary: the handler
returns the `rebuildFailed` outcome (the error is logged as a warning,
never rethrown) and the watch loop goes on to handle the subsequent
events. -/
theorem rebuild_failure_caught (env : Env) (cfg : Config) (st : BuildState)
    (k : FsEventKind) (fn : String) (es : List WatchEvent) (err : BuildError)
    (st' : BuildState) (evs : List Event)
    (hk : k ≠ .addDir) (hk' : k ≠ .unlinkDir)
    (hnot : cfg.configImports.contains (env.join cfg.root fn) = false)
    (hfail : resolve env (deleteCacheFor cfg (env.join cfg.root fn))
        (some (env.join cfg.root fn)) st = (.error err, st', evs)) :
    handleEvent env cfg ⟨k, some fn⟩ st =
      (.rebuildFailed, deleteCacheFor cfg (env.join cfg.root fn), st', evs) ∧
    (processEvents env cfg st (⟨k, some fn⟩ :: es)).1 =
      .rebuildFailed ::
        (processEvents env (deleteCacheFor cfg (env.join cfg.root fn)) st' es).1 := by
  have hnot' : (deleteCacheFor cfg (env.join cfg.root fn)).configImports.contains
      (env.join cfg.root fn) = false := hnot
  have h₁ : handleEvent env cfg ⟨k, some fn⟩ st =
      (.rebuildFailed, deleteCacheFor cfg (env.join cfg.root fn), st', evs) := by
    unfold handleEvent
    cases k with
    | addDir => exact absurd rfl hk
    | unlinkDir => exact absurd rfl hk'
    | add => dsimp only; rw [hnot', hfail]; simp
    | change => dsimp only; rw [hnot', hfail]; simp
    | unlink => dsimp only; rw [hnot', hfail]; simp
  refine ⟨h₁, ?_⟩
  rw [processEvents_cons, h₁]
  simp

def metaFail : VeliteFile :=
  { path := "/r/posts/a.md", records := .str "raw"
    messages := [⟨"invalid title", "title"⟩], result := .undefined }

def stFail : BuildState :=
  { fileCache := [("/r/posts/a.md", metaFail)]
    resolvedCache := [("posts", [metaFail])] }

def evsFail : List Event :=
  [.globbed "posts", .fileRead "/r/posts/a.md", .validated "/r/posts/a.md" 0,
   .warnedIssues]

theorem rebuild_failure_caught_witness :
    cfgWatch.configImports.contains (envParse.join cfgWatch.root "posts/a.md") = false ∧
    resolve envParse (deleteCacheFor cfgWatch (envParse.join cfgWatch.root "posts/a.md"))
        (some (envParse.join cfgWatch.root "posts/a.md")) ⟨[], []⟩ =
      (.error .schemaValidationFailed, stFail, evsFail) ∧
    handleEvent envParse cfgWatch ⟨.change, some "posts/a.md"⟩ ⟨[], []⟩ =
      (.rebuildFailed, deleteCacheFor cfgWatch (envParse.join cfgWatch.root "posts/a.md"),
       stFail, evsFail) ∧
    (processEvents envParse cfgWatch ⟨[], []⟩
        [⟨.change, some "posts/a.md"⟩, ⟨.unlink, some "posts/a.md"⟩]).1 =
      .rebuildFailed ::
        (processEvents envParse
          (deleteCacheFor cfgWatch (envParse.join cfgWatch.root "posts/a.md"))
          stFail [⟨.unlink, some "posts/a.md"⟩]).1 :=
  have h := rebuild_failure_caught envParse cfgWatch ⟨[], []⟩ .change "posts/a.md"
    [⟨.unlink, some "posts/a.md"⟩] .schemaValidationFailed stFail evsFail
    (by decide) (by decide) (by decide) (by rfl)
  ⟨by decide, by rfl, h.1, h.2⟩

/-- C10: for every markdown field transform whose underlying
markdown-to-HTML pipeline fails on a string input, the transform does
not fail the record outright: it records the pipeline error's message
as a custom validation issue and returns the original raw input string
as the field's value. -/
theorem markdown_pipeline_failure (pipeline : Option String → Except String String)
    (fileContent : Option String) (s msg : String)
    (hfail : pipeline (some s) = .error msg) :
    markdownTransform pipeline fileContent (some s) = (some s, [⟨"custom", msg⟩]) := by
  unfold markdownTransform
  simp [hfail]

theorem markdown_pipeline_failure_witness :
    (fun _ : Option String => (Except.error "unterminated html" : Except String String))
        (some "# hi <b") = .error "unterminated html" ∧
    markdownTransform (fun _ => .error "unterminated html") none (some "# hi <b") =
      (some "# hi <b", [⟨"custom", "unterminated html"⟩]) :=
  ⟨rfl,
   markdown_pipeline_failure (fun _ => .error "unterminated html") none
     "# hi <b" "unterminated html" rfl⟩

end Velite
